import Mathlib

/-!
Shallow embedding of the logos-module plugin library (C++/Qt) and proofs of
its specification claims.

Modelling conventions:
* `QJsonValue` / `QJsonObject` are modelled as an inductive JSON tree; an
  object is an association list of key/value pairs, `value` is first-match
  lookup, and the Qt coercions `toString` / `toArray` / `toObject` return the
  Qt sentinel (empty string / empty array / empty object) on a type mismatch,
  exactly as QJsonValue does.
* Pointers (`QObject*`, `QPluginLoader*`) are modelled as option-like values;
  a `QObject*` carries its meta-object, a loader pointer is an identifier.
* Foreign inputs that come from outside the repository (the JSON blob that
  `QPluginLoader::metaData()` returns, the `QPluginLoader::staticInstances()`
  list) are passed to the embedded functions as explicit arguments.
* Effects that matter to the claims (which loader resources an operation
  frees) are returned explicitly as a list of freed loader identifiers.
-/

namespace ModuleLib

/-- Model of QJsonValue: the JSON value types Qt distinguishes, plus the
`Undefined` sentinel returned when a key is absent from an object. -/
inductive JsonValue where
| undefined : JsonValue
| null : JsonValue
| bool (b : Bool) : JsonValue
| num (n : Int) : JsonValue
| str (s : String) : JsonValue
| arr (elems : List JsonValue) : JsonValue
| obj (fields : List (String × JsonValue)) : JsonValue

/-- Model of QJsonObject: an ordered key/value association list. -/
structure QJsonObject where
fields : List (String × JsonValue)

/-- QJsonObject::value(key): the first binding of `key`, Undefined if absent. -/
def QJsonObject.value (o : QJsonObject) (key : String) : JsonValue :=
match o.fields.find? (fun f => f.1 == key) with
| some f => f.2
| none => JsonValue.undefined

/-- QJsonObject::isEmpty(). -/
def QJsonObject.isEmpty (o : QJsonObject) : Bool :=
o.fields.isEmpty

/-- QJsonValue::toString(): the string payload, or the empty (null) string for
any non-string value. -/
def JsonValue.toString : JsonValue → String
| JsonValue.str s => s
| _ => ""

/-- QJsonValue::toArray(): the element list, or the empty array for any
non-array value. -/
def JsonValue.toArray : JsonValue → List JsonValue
| JsonValue.arr elems => elems
| _ => []

/-- QJsonValue::toObject(): the object payload, or the empty object for any
non-object value. -/
def JsonValue.toObject : JsonValue → QJsonObject
| JsonValue.obj fs => QJsonObject.mk fs
| _ => QJsonObject.mk []

/-- ModuleMetadata (module_metadata.h): typed fields, dependency list and the
raw JSON bag. -/
structure ModuleMetadata where
name : String
version : String
description : String
author : String
type : String
dependencies : List String
rawMetadata : QJsonObject

/-- The default-constructed ModuleMetadata: all strings empty, no
dependencies, empty raw object. -/
def emptyMetadata : ModuleMetadata :=
ModuleMetadata.mk "" "" "" "" "" [] (QJsonObject.mk [])

/-- ModuleMetadata::isValid(): the record has a non-empty name. -/
def ModuleMetadata.isValid (m : ModuleMetadata) : Bool :=
!m.name.isEmpty

/-- The dependency loop of ModuleMetadata::fromCustomMetadata
(module_metadata.cpp lines 45-51): coerce each array entry to a string and
append it unless it is empty. -/
def parseDependencies : List JsonValue → List String
| [] => []
| dep :: rest =>
  let depName := dep.toString
  if depName.isEmpty then parseDependencies rest
  else depName :: parseDependencies rest

/-- ModuleMetadata::fromCustomMetadata (module_metadata.cpp lines 35-54):
promote the five typed fields, keep the whole input as rawMetadata, and
parse the dependencies array. -/
def ModuleMetadata.fromCustomMetadata (customMetadata : QJsonObject) : ModuleMetadata :=
ModuleMetadata.mk
  (customMetadata.value "name").toString
  (customMetadata.value "version").toString
  (customMetadata.value "description").toString
  (customMetadata.value "author").toString
  (customMetadata.value "type").toString
  (parseDependencies (customMetadata.value "dependencies").toArray)
  customMetadata

/-- ModuleMetadata::fromJson (module_metadata.cpp lines 20-33): extract the
nested MetaData object; nothing when it is empty or parses invalid. -/
def ModuleMetadata.fromJson (json : QJsonObject) : Option ModuleMetadata :=
let customMetadata := (json.value "MetaData").toObject
if customMetadata.isEmpty then none
else
  let result := ModuleMetadata.fromCustomMetadata customMetadata
  if !result.isValid then none
  else some result

/-- ModuleMetadata::fromPath (module_metadata.cpp lines 8-18), with the JSON
object that QPluginLoader::metaData() reads from the binary passed as the
argument: nothing when that object is empty, otherwise fromJson. -/
def ModuleMetadata.fromPath (metaData : QJsonObject) : Option ModuleMetadata :=
if metaData.isEmpty then none
else ModuleMetadata.fromJson metaData

/-- QMetaMethod::MethodType. -/
inductive MethodType where
| Method : MethodType
| Signal : MethodType
| Slot : MethodType
| Constructor : MethodType
deriving DecidableEq

/-- Model of QMetaMethod: the per-method reflection data the code reads.
`enclosing` is the identity of the meta-object the method was declared in
(QMetaMethod::enclosingMetaObject(), compared by pointer in the code). -/
structure QMetaMethod where
methodSignature : String
name : String
typeName : String
isValid : Bool
methodType : MethodType
parameterTypeNames : List String
parameterNames : List String
enclosing : Nat
deriving DecidableEq

/-- QMetaMethod::parameterCount(). -/
def QMetaMethod.parameterCount (m : QMetaMethod) : Nat :=
m.parameterTypeNames.length

/-- QMetaMethod::parameterTypeName(p). -/
def QMetaMethod.parameterTypeName (m : QMetaMethod) (p : Nat) : String :=
m.parameterTypeNames.getD p ""

/-- Model of QMetaObject: identity, class name, and the full method table
(indices 0 ..< methodCount(), inherited methods included as in Qt). -/
structure QMetaObject where
objId : Nat
className : String
methods : List QMetaMethod
deriving DecidableEq

/-- A QObject* pointer: null, or an object carrying its most-derived
meta-object. -/
inductive QObjectPtr where
| null : QObjectPtr
| obj (metaObject : QMetaObject) : QObjectPtr
deriving DecidableEq

/-- ParameterInfo (logos_module.h / module_introspection.h). -/
structure ParameterInfo where
name : String
type : String
deriving DecidableEq

/-- MethodInfo (logos_module.h / module_introspection.h). -/
structure MethodInfo where
name : String
signature : String
returnType : String
isInvokable : Bool
parameters : List ParameterInfo
deriving DecidableEq

namespace LogosModule

/-- ParameterInfo::toJson (logos_module.cpp lines 8-13). -/
def ParameterInfo.toJson (p : ParameterInfo) : QJsonObject :=
QJsonObject.mk [("name", JsonValue.str p.name), ("type", JsonValue.str p.type)]

/-- MethodInfo::toJson (logos_module.cpp lines 15-31): the four scalar fields,
plus a parameters array only when the parameter list is non-empty. -/
def MethodInfo.toJson (m : MethodInfo) : QJsonObject :=
let base := [("name", JsonValue.str m.name), ("signature", JsonValue.str m.signature),
  ("returnType", JsonValue.str m.returnType), ("isInvokable", JsonValue.bool m.isInvokable)]
if m.parameters.isEmpty then QJsonObject.mk base
else QJsonObject.mk (base ++
  [("parameters", JsonValue.arr (m.parameters.map (fun p => JsonValue.obj (ParameterInfo.toJson p).fields)))])

/-- The parameter loop of LogosModule::getMethods (logos_module.cpp lines
220-235): one ParameterInfo per reported parameter, with the synthesized
fallback name when the binary provides none. -/
def buildParameters (method : QMetaMethod) : List ParameterInfo :=
(List.range method.parameterCount).map (fun p =>
  let paramNames := method.parameterNames
  if decide (p < paramNames.length) && !(paramNames.getD p "").isEmpty then
    ParameterInfo.mk (paramNames.getD p "") (method.parameterTypeName p)
  else
    ParameterInfo.mk ("param" ++ Nat.repr p) (method.parameterTypeName p))

/-- The MethodInfo built for one QMetaMethod in LogosModule::getMethods
(logos_module.cpp lines 211-235). -/
def methodToInfo (method : QMetaMethod) : MethodInfo :=
MethodInfo.mk method.name method.methodSignature method.typeName
  (method.isValid && (method.methodType == MethodType.Method || method.methodType == MethodType.Slot))
  (if method.parameterCount > 0 then buildParameters method else [])

/-- The method loop of LogosModule::getMethods (logos_module.cpp lines
204-238): skip a method when excludeBaseClass is set and its declaring
meta-object is not the instance's own. -/
def getMethodsFrom (metaObject : QMetaObject) (excludeBaseClass : Bool) :
    List QMetaMethod → List MethodInfo
| [] => []
| method :: rest =>
  if excludeBaseClass && !(method.enclosing == metaObject.objId) then
    getMethodsFrom metaObject excludeBaseClass rest
  else
    methodToInfo method :: getMethodsFrom metaObject excludeBaseClass rest

/-- LogosModule::getMethods (static overload, logos_module.cpp lines
194-241). -/
def getMethods (o : QObjectPtr) (excludeBaseClass : Bool) : List MethodInfo :=
match o with
| QObjectPtr.null => []
| QObjectPtr.obj metaObject => getMethodsFrom metaObject excludeBaseClass metaObject.methods

/-- LogosModule::getMethodsAsJson (static overload, logos_module.cpp lines
243-252). -/
def getMethodsAsJson (o : QObjectPtr) (excludeBaseClass : Bool) : List QJsonObject :=
(getMethods o excludeBaseClass).map MethodInfo.toJson

/-- LogosModule::getClassName (static overload, logos_module.cpp lines
254-259). -/
def getClassName (o : QObjectPtr) : String :=
match o with
| QObjectPtr.null => ""
| QObjectPtr.obj metaObject => metaObject.className

/-- The search loop of LogosModule::hasMethod (logos_module.cpp lines
266-273). -/
def hasMethodFrom (methodName : String) : List MethodInfo → Bool
| [] => false
| method :: rest =>
  if method.name == methodName then true
  else hasMethodFrom methodName rest

/-- LogosModule::hasMethod (static overload, logos_module.cpp lines
261-274): scan the full (base-class-included) enumeration. -/
def hasMethod (o : QObjectPtr) (methodName : String) : Bool :=
match o with
| QObjectPtr.null => false
| QObjectPtr.obj _ => hasMethodFrom methodName (getMethods o false)

end LogosModule

/-- The state of a LogosModule handle (logos_module.h lines 290-296):
loader pointer (modelled as an optional loader identifier), instance
pointer, metadata, error string and the static flag. -/
structure LogosModule where
m_loader : Option Nat
m_instance : QObjectPtr
m_metadata : ModuleMetadata
m_errorString : String
m_isStatic : Bool

namespace LogosModule

/-- The default-constructed LogosModule: null pointers, default metadata,
empty error, not static. -/
def init : LogosModule :=
LogosModule.mk none QObjectPtr.null emptyMetadata "" false

/-- LogosModule::isValid (logos_module.cpp lines 143-145). -/
def isValid (m : LogosModule) : Bool :=
match m.m_instance with
| QObjectPtr.null => false
| QObjectPtr.obj _ => true

/-- LogosModule::instance (logos_module.cpp lines 147-149); named
`instanceQ` because `instance` is reserved in Lean. -/
def instanceQ (m : LogosModule) : QObjectPtr :=
m.m_instance

/-- LogosModule::metadata (logos_module.cpp lines 151-153). -/
def metadata (m : LogosModule) : ModuleMetadata :=
m.m_metadata

/-- LogosModule::errorString (logos_module.cpp lines 155-157). -/
def errorString (m : LogosModule) : String :=
m.m_errorString

/-- LogosModule::unload (logos_module.cpp lines 159-166): when a loader is
held and the handle is not static, the library is unloaded and the loader
deleted (returned here as the list of freed loader identifiers); in every
case both the loader and the instance pointer are then set to null. -/
def unload (m : LogosModule) : LogosModule × List Nat :=
let freed := match m.m_loader with
  | some loader => if m.m_isStatic then [] else [loader]
  | none => []
(LogosModule.mk none QObjectPtr.null m.m_metadata m.m_errorString m.m_isStatic, freed)

/-- The destructor (logos_module.cpp lines 35-37) calls unload; its effect is
the list of loader resources it frees. -/
def destruct (m : LogosModule) : List Nat :=
(unload m).2

/-- LogosModule::release (logos_module.cpp lines 168-176): return the held
instance, null out both pointers and mark the handle static; nothing is
freed. -/
def release (m : LogosModule) : QObjectPtr × LogosModule :=
(m.m_instance, LogosModule.mk none QObjectPtr.null m.m_metadata m.m_errorString true)

/-- LogosModule::wrapExisting (logos_module.cpp lines 123-137): error out on
a null object, otherwise adopt the instance with the given metadata, static,
without a loader. -/
def wrapExisting (pluginObject : QObjectPtr) (md : ModuleMetadata) : LogosModule :=
match pluginObject with
| QObjectPtr.null => LogosModule.mk none QObjectPtr.null emptyMetadata "Null plugin object" false
| QObjectPtr.obj _ => LogosModule.mk none pluginObject md "" true

/-- LogosModule::getStaticModules (logos_module.cpp lines 101-121), with the
QPluginLoader::staticInstances() list passed as the argument: skip null
entries, wrap each object, force the static flag, keep valid handles. -/
def getStaticModules : List QObjectPtr → List LogosModule
| [] => []
| pluginObject :: rest =>
  match pluginObject with
  | QObjectPtr.null => getStaticModules rest
  | QObjectPtr.obj mo =>
    let module := wrapExisting (QObjectPtr.obj mo) emptyMetadata
    let module := LogosModule.mk module.m_loader module.m_instance module.m_metadata module.m_errorString true
    if module.isValid then module :: getStaticModules rest
    else getStaticModules rest

end LogosModule

/-- The state of a ModuleHandle (module_loader.h), field-for-field the same
shape as LogosModule. -/
structure ModuleHandle where
m_loader : Option Nat
m_instance : QObjectPtr
m_metadata : ModuleMetadata
m_errorString : String
m_isStatic : Bool

namespace ModuleHandle

/-- The default-constructed ModuleHandle. -/
def init : ModuleHandle :=
ModuleHandle.mk none QObjectPtr.null emptyMetadata "" false

/-- ModuleHandle::isValid (module_loader.cpp lines 43-45). -/
def isValid (m : ModuleHandle) : Bool :=
match m.m_instance with
| QObjectPtr.null => false
| QObjectPtr.obj _ => true

/-- ModuleHandle::instance (module_loader.cpp lines 47-49). -/
def instanceQ (m : ModuleHandle) : QObjectPtr :=
m.m_instance

/-- ModuleHandle::metadata (module_loader.cpp lines 51-53). -/
def metadata (m : ModuleHandle) : ModuleMetadata :=
m.m_metadata

/-- ModuleHandle::errorString (module_loader.cpp lines 55-57). -/
def errorString (m : ModuleHandle) : String :=
m.m_errorString

/-- ModuleHandle::unload (module_loader.cpp lines 59-66): same behavior as
LogosModule::unload. -/
def unload (m : ModuleHandle) : ModuleHandle × List Nat :=
let freed := match m.m_loader with
  | some loader => if m.m_isStatic then [] else [loader]
  | none => []
(ModuleHandle.mk none QObjectPtr.null m.m_metadata m.m_errorString m.m_isStatic, freed)

/-- The destructor (module_loader.cpp lines 10-12) calls unload. -/
def destruct (m : ModuleHandle) : List Nat :=
(unload m).2

/-- ModuleHandle::release (module_loader.cpp lines 68-78): the loader is
intentionally leaked (set to null without being freed) and the static flag
is set to prevent any later cleanup. -/
def release (m : ModuleHandle) : QObjectPtr × ModuleHandle :=
(m.m_instance, ModuleHandle.mk none QObjectPtr.null m.m_metadata m.m_errorString true)

/-- ModuleLoader::wrapExisting (module_loader.cpp lines 145-159). -/
def wrapExisting (pluginObject : QObjectPtr) (md : ModuleMetadata) : ModuleHandle :=
match pluginObject with
| QObjectPtr.null => ModuleHandle.mk none QObjectPtr.null emptyMetadata "Null plugin object" false
| QObjectPtr.obj _ => ModuleHandle.mk none pluginObject md "" true

end ModuleHandle

namespace ModuleIntrospection

/-- ParameterInfo::toJson (module_introspection.cpp lines 8-13). -/
def ParameterInfo.toJson (p : ParameterInfo) : QJsonObject :=
QJsonObject.mk [("name", JsonValue.str p.name), ("type", JsonValue.str p.type)]

/-- MethodInfo::toJson (module_introspection.cpp lines 15-31). -/
def MethodInfo.toJson (m : MethodInfo) : QJsonObject :=
let base := [("name", JsonValue.str m.name), ("signature", JsonValue.str m.signature),
  ("returnType", JsonValue.str m.returnType), ("isInvokable", JsonValue.bool m.isInvokable)]
if m.parameters.isEmpty then QJsonObject.mk base
else QJsonObject.mk (base ++
  [("parameters", JsonValue.arr (m.parameters.map (fun p => JsonValue.obj (ParameterInfo.toJson p).fields)))])

/-- The parameter loop of ModuleIntrospection::getMethods
(module_introspection.cpp lines 62-78). -/
def buildParameters (method : QMetaMethod) : List ParameterInfo :=
(List.range method.parameterCount).map (fun p =>
  let paramNames := method.parameterNames
  if decide (p < paramNames.length) && !(paramNames.getD p "").isEmpty then
    ParameterInfo.mk (paramNames.getD p "") (method.parameterTypeName p)
  else
    ParameterInfo.mk ("param" ++ Nat.repr p) (method.parameterTypeName p))

/-- The MethodInfo built for one QMetaMethod in ModuleIntrospection::getMethods
(module_introspection.cpp lines 51-78). -/
def methodToInfo (method : QMetaMethod) : MethodInfo :=
MethodInfo.mk method.name method.methodSignature method.typeName
  (method.isValid && (method.methodType == MethodType.Method || method.methodType == MethodType.Slot))
  (if method.parameterCount > 0 then buildParameters method else [])

/-- The method loop of ModuleIntrospection::getMethods
(module_introspection.cpp lines 43-81). -/
def getMethodsFrom (metaObject : QMetaObject) (excludeBaseClass : Bool) :
    List QMetaMethod → List MethodInfo
| [] => []
| method :: rest =>
  if excludeBaseClass && !(method.enclosing == metaObject.objId) then
    getMethodsFrom metaObject excludeBaseClass rest
  else
    methodToInfo method :: getMethodsFrom metaObject excludeBaseClass rest

/-- ModuleIntrospection::getMethods (module_introspection.cpp lines 33-84). -/
def getMethods (plugin : QObjectPtr) (excludeBaseClass : Bool) : List MethodInfo :=
match plugin with
| QObjectPtr.null => []
| QObjectPtr.obj metaObject => getMethodsFrom metaObject excludeBaseClass metaObject.methods

/-- ModuleIntrospection::getMethodsAsJson (module_introspection.cpp lines
86-95). -/
def getMethodsAsJson (plugin : QObjectPtr) (excludeBaseClass : Bool) : List QJsonObject :=
(getMethods plugin excludeBaseClass).map MethodInfo.toJson

/-- ModuleIntrospection::getClassName (module_introspection.cpp lines
97-102). -/
def getClassName (plugin : QObjectPtr) : String :=
match plugin with
| QObjectPtr.null => ""
| QObjectPtr.obj metaObject => metaObject.className

/-- The search loop of ModuleIntrospection::hasMethod
(module_introspection.cpp lines 109-116). -/
def hasMethodFrom (methodName : String) : List MethodInfo → Bool
| [] => false
| method :: rest =>
  if method.name == methodName then true
  else hasMethodFrom methodName rest

/-- ModuleIntrospection::hasMethod (module_introspection.cpp lines
104-117). -/
def hasMethod (plugin : QObjectPtr) (methodName : String) : Bool :=
match plugin with
| QObjectPtr.null => false
| QObjectPtr.obj _ => hasMethodFrom methodName (getMethods plugin false)

end ModuleIntrospection

/-- Concrete sample: the deleteLater() slot QObject declares (declaring
meta-object id 0, the base class). -/
def mDeleteLater : QMetaMethod :=
QMetaMethod.mk "deleteLater()" "deleteLater" "" true MethodType.Slot [] [] 0

/-- Concrete sample: an own invokable method of a mock plugin (declaring
meta-object id 1, the most-derived class). -/
def mTestMethod : QMetaMethod :=
QMetaMethod.mk "testMethod(int)" "testMethod" "QString" true MethodType.Method ["int"] ["value"] 1

/-- Concrete sample meta-object: a mock plugin class (id 1) whose method
table holds one inherited method and one own method. -/
def mockMeta : QMetaObject :=
QMetaObject.mk 1 "MockPlugin" [mDeleteLater, mTestMethod]

/-- Concrete sample: a static handle adopted via LogosModule::wrapExisting. -/
def staticHandle : LogosModule :=
LogosModule.wrapExisting (QObjectPtr.obj mockMeta) emptyMetadata

/-- Concrete sample: a static handle adopted via ModuleLoader::wrapExisting. -/
def staticHandleM : ModuleHandle :=
ModuleHandle.wrapExisting (QObjectPtr.obj mockMeta) emptyMetadata

/-- Concrete sample descriptor with no name field (mirrors the
FromCustomMetadata_EmptyName unit test). -/
def sampleNoName : QJsonObject :=
QJsonObject.mk [("version", JsonValue.str "1.0.0")]

/-- Concrete sample top-level plugin metadata whose MetaData section is
`sampleNoName`. -/
def sampleNoNameOuter : QJsonObject :=
QJsonObject.mk [("MetaData", JsonValue.obj [("version", JsonValue.str "1.0.0")])]

/-- Concrete sample descriptor whose dependencies array is `["a","","b"]`. -/
def sampleDeps : QJsonObject :=
QJsonObject.mk [("name", JsonValue.str "p"),
  ("dependencies", JsonValue.arr [JsonValue.str "a", JsonValue.str "", JsonValue.str "b"])]

/-! Helper lemmas. -/

/-- The dependency loop is the map-to-string of the array with the empty
strings filtered out. -/
theorem parseDependencies_eq (xs : List JsonValue) :
    parseDependencies xs = (xs.map JsonValue.toString).filter (fun s => !s.isEmpty) := by
  induction xs with
  | nil => rfl
  | cons d rest ih =>
    simp only [parseDependencies, List.map_cons, List.filter_cons]
    cases h : (JsonValue.toString d).isEmpty <;> simp [h, ih]

/-! Claim theorems. -/

/-- C4: a descriptor whose name field is absent or the empty string yields an
invalid record from fromCustomMetadata, and nothing from fromJson and
fromPath; no path yields a valid record. -/
theorem missing_name_never_valid (desc : QJsonObject)
    (h : desc.fields.find? (fun f => f.1 == "name") = none ∨
      desc.value "name" = JsonValue.str "") :
    (ModuleMetadata.fromCustomMetadata desc).isValid = false ∧
    ∀ json : QJsonObject, (json.value "MetaData").toObject = desc →
      ModuleMetadata.fromJson json = none ∧ ModuleMetadata.fromPath json = none := by
  have hname : (desc.value "name").toString = "" := by
    rcases h with h | h
    · simp only [QJsonObject.value, h]
      rfl
    · rw [h]
      rfl
  have hvalid : (ModuleMetadata.fromCustomMetadata desc).isValid = false := by
    simp only [ModuleMetadata.fromCustomMetadata, ModuleMetadata.isValid, hname]
    rfl
  refine ⟨hvalid, fun json hmeta => ?_⟩
  have hjson : ModuleMetadata.fromJson json = none := by
    simp only [ModuleMetadata.fromJson, hmeta, hvalid]
    split <;> simp
  refine ⟨hjson, ?_⟩
  simp only [ModuleMetadata.fromPath, hjson]
  split <;> rfl

/-- C4 witness: the nameless sample descriptor is rejected everywhere. -/
theorem missing_name_never_valid_witness :
    (sampleNoName.fields.find? (fun f => f.1 == "name") = none ∨
      sampleNoName.value "name" = JsonValue.str "") ∧
    (ModuleMetadata.fromCustomMetadata sampleNoName).isValid = false ∧
    ModuleMetadata.fromJson sampleNoNameOuter = none ∧
    ModuleMetadata.fromPath sampleNoNameOuter = none := by
  have h := missing_name_never_valid sampleNoName (Or.inl rfl)
  exact ⟨Or.inl rfl, h.1, (h.2 sampleNoNameOuter rfl).1, (h.2 sampleNoNameOuter rfl).2⟩

/-- C5: fromCustomMetadata keeps the whole input object as rawMetadata, so
every key of the input (typed, dependencies, or unknown) is reproduced with
an identical value. -/
theorem raw_metadata_roundtrip (input : QJsonObject) (k : String) :
    (ModuleMetadata.fromCustomMetadata input).rawMetadata = input ∧
    ((ModuleMetadata.fromCustomMetadata input).rawMetadata).value k = input.value k :=
  ⟨rfl, rfl⟩

/-- C6: when the dependencies key holds an array, the parsed dependency list
is the entries coerced to text with the empty ones dropped, in order,
without deduplication. -/
theorem dependencies_filter_empty (input : QJsonObject) (xs : List JsonValue)
    (h : input.value "dependencies" = JsonValue.arr xs) :
    (ModuleMetadata.fromCustomMetadata input).dependencies =
      (xs.map JsonValue.toString).filter (fun s => !s.isEmpty) := by
  simp [ModuleMetadata.fromCustomMetadata, h, JsonValue.toArray, parseDependencies_eq]

/-- C6 witness: the dependencies array `["a","","b"]` parses to `["a","b"]`. -/
theorem dependencies_filter_empty_witness :
    sampleDeps.value "dependencies" =
      JsonValue.arr [JsonValue.str "a", JsonValue.str "", JsonValue.str "b"] ∧
    (ModuleMetadata.fromCustomMetadata sampleDeps).dependencies = ["a", "b"] := by
  refine ⟨rfl, ?_⟩
  rw [dependencies_filter_empty sampleDeps
    [JsonValue.str "a", JsonValue.str "", JsonValue.str "b"] rfl]
  rfl

/-- C1 counterexample: a valid static handle (adopted via wrapExisting) is
NOT left unchanged by unload(); the instance pointer is cleared
unconditionally, so isValid() flips from true to false. -/
theorem static_unload_changes_handle :
    staticHandle.m_isStatic = true ∧
    staticHandle.isValid = true ∧
    (staticHandle.unload.1).isValid = false ∧
    ¬(staticHandle.unload.1).instanceQ = staticHandle.instanceQ ∧
    staticHandleM.m_isStatic = true ∧
    staticHandleM.isValid = true ∧
    (staticHandleM.unload.1).isValid = false := by
  refine ⟨rfl, rfl, rfl, ?_, rfl, rfl, rfl⟩
  decide

/-- C1 amended: on a handle whose isStatic flag is true, unload() never
frees the loader resource and leaves metadata(), errorString() and the
static flag unchanged, but it unconditionally clears the instance pointer:
after the first call instance() is null and isValid() is false, and every
further call is a no-op on the state. -/
theorem static_unload_frees_nothing (m : LogosModule) (n : ModuleHandle)
    (hm : m.m_isStatic = true) (hn : n.m_isStatic = true) :
    m.unload.2 = [] ∧
    (m.unload.1).metadata = m.metadata ∧
    (m.unload.1).errorString = m.errorString ∧
    (m.unload.1).m_isStatic = true ∧
    (m.unload.1).instanceQ = QObjectPtr.null ∧
    (m.unload.1).isValid = false ∧
    (m.unload.1).unload.1 = m.unload.1 ∧
    (m.unload.1).unload.2 = [] ∧
    n.unload.2 = [] ∧
    (n.unload.1).metadata = n.metadata ∧
    (n.unload.1).errorString = n.errorString ∧
    (n.unload.1).m_isStatic = true ∧
    (n.unload.1).instanceQ = QObjectPtr.null ∧
    (n.unload.1).isValid = false ∧
    (n.unload.1).unload.1 = n.unload.1 ∧
    (n.unload.1).unload.2 = [] := by
  refine ⟨?_, rfl, rfl, hm, rfl, rfl, rfl, ?_, ?_, rfl, rfl, hn, rfl, rfl, rfl, ?_⟩
  · cases hl : m.m_loader <;> simp [LogosModule.unload, hm, hl]
  · simp [LogosModule.unload]
  · cases hl : n.m_loader <;> simp [ModuleHandle.unload, hn, hl]
  · simp [ModuleHandle.unload]

/-- C1 amended witness: the sample static handles, evaluated. -/
theorem static_unload_frees_nothing_witness :
    staticHandle.m_isStatic = true ∧
    staticHandle.unload.2 = [] ∧
    (staticHandle.unload.1).metadata = staticHandle.metadata ∧
    (staticHandle.unload.1).isValid = false ∧
    staticHandleM.unload.2 = [] := by
  have h := static_unload_frees_nothing staticHandle staticHandleM rfl rfl
  exact ⟨rfl, h.1, h.2.1, h.2.2.2.2.2.1, h.2.2.2.2.2.2.2.2.1⟩

/-- C2: unload() is idempotent: a second unload() leaves the state of the
first and frees nothing, unload() of a default-constructed handle is a
no-op that frees nothing, and after any unload() the handle is invalid
(both for LogosModule and for ModuleHandle). -/
theorem unload_idempotent (m : LogosModule) (n : ModuleHandle) :
    (m.unload.1).unload.1 = m.unload.1 ∧
    (m.unload.1).unload.2 = [] ∧
    (m.unload.1).isValid = false ∧
    LogosModule.init.unload.1 = LogosModule.init ∧
    LogosModule.init.unload.2 = [] ∧
    (n.unload.1).unload.1 = n.unload.1 ∧
    (n.unload.1).unload.2 = [] ∧
    (n.unload.1).isValid = false ∧
    ModuleHandle.init.unload.1 = ModuleHandle.init ∧
    ModuleHandle.init.unload.2 = [] :=
  ⟨rfl, rfl, rfl, rfl, rfl, rfl, rfl, rfl, rfl, rfl⟩

/-- C3: release() on a valid handle returns the instance pointer the handle
held, and afterwards the handle is inert: isValid() is false, and neither a
later unload() nor the destructor frees any resource (both for LogosModule
and for ModuleHandle). -/
theorem release_disables_cleanup (m : LogosModule) (n : ModuleHandle)
    (hm : m.isValid = true) (hn : n.isValid = true) :
    m.release.1 = m.instanceQ ∧
    (m.release.2).isValid = false ∧
    (m.release.2).instanceQ = QObjectPtr.null ∧
    (m.release.2).unload.2 = [] ∧
    (m.release.2).destruct = [] ∧
    n.release.1 = n.instanceQ ∧
    (n.release.2).isValid = false ∧
    (n.release.2).instanceQ = QObjectPtr.null ∧
    (n.release.2).unload.2 = [] ∧
    (n.release.2).destruct = [] :=
  ⟨rfl, rfl, rfl, rfl, rfl, rfl, rfl, rfl, rfl, rfl⟩

/-- C3 witness: the sample valid handles, evaluated. -/
theorem release_disables_cleanup_witness :
    staticHandle.isValid = true ∧
    staticHandle.release.1 = staticHandle.instanceQ ∧
    (staticHandle.release.2).isValid = false ∧
    (staticHandle.release.2).destruct = [] ∧
    staticHandleM.release.1 = staticHandleM.instanceQ := by
  have h := release_disables_cleanup staticHandle staticHandleM rfl rfl
  exact ⟨rfl, h.1, h.2.1, h.2.2.2.2.1, h.2.2.2.2.2.1⟩

/-- The hasMethod search loop is List.any on the name. -/
theorem hasMethodFrom_eq_any (methodName : String) (l : List MethodInfo) :
    LogosModule.hasMethodFrom methodName l = l.any (fun info => info.name == methodName) := by
  induction l with
  | nil => rfl
  | cons info rest ih =>
    simp only [LogosModule.hasMethodFrom, List.any_cons, ih]
    cases h : info.name == methodName <;> simp [h]

/-- The getMethods loop is a filter on the skip condition followed by the
per-method conversion. -/
theorem getMethodsFrom_eq_filter_map (mo : QMetaObject) (excl : Bool) (ms : List QMetaMethod) :
    LogosModule.getMethodsFrom mo excl ms =
      (ms.filter (fun me => !(excl && !(me.enclosing == mo.objId)))).map LogosModule.methodToInfo := by
  induction ms with
  | nil => rfl
  | cons me rest ih =>
    simp only [LogosModule.getMethodsFrom, List.filter_cons, ih]
    cases h : excl && !(me.enclosing == mo.objId) <;> simp [h]

/-- Without the base-class filter, every method of the table is converted. -/
theorem getMethods_false_eq (mo : QMetaObject) :
    LogosModule.getMethods (QObjectPtr.obj mo) false = mo.methods.map LogosModule.methodToInfo := by
  simp [LogosModule.getMethods, getMethodsFrom_eq_filter_map]

/-- With the base-class filter, exactly the methods declared by the
most-derived meta-object are converted. -/
theorem getMethods_true_eq (mo : QMetaObject) :
    LogosModule.getMethods (QObjectPtr.obj mo) true =
      (mo.methods.filter (fun me => me.enclosing == mo.objId)).map LogosModule.methodToInfo := by
  simp [LogosModule.getMethods, getMethodsFrom_eq_filter_map]

/-- A filter is strictly shorter than the list when some element fails the
predicate. -/
theorem length_filter_lt_of_exists_not {α : Type} (p : α → Bool) (l : List α)
    (h : ∃ x ∈ l, p x = false) : (l.filter p).length < l.length := by
  induction l with
  | nil => simp at h
  | cons a rest ih =>
    rcases h with ⟨x, hx, hpx⟩
    rcases List.mem_cons.mp hx with rfl | hxl
    · rw [List.filter_cons, hpx]
      have hlen := List.length_filter_le p rest
      simp only [List.length_cons]
      simp
      omega
    · cases hpa : p a
      · rw [List.filter_cons, hpa]
        have hlen := List.length_filter_le p rest
        simp only [List.length_cons]
        simp
        omega
      · rw [List.filter_cons, hpa]
        have hlt := ih ⟨x, hxl, hpx⟩
        simp only [List.length_cons]
        simp
        omega

/-- The two introspection loops agree method-for-method. -/
theorem introspection_getMethodsFrom_eq (mo : QMetaObject) (excl : Bool) (ms : List QMetaMethod) :
    ModuleIntrospection.getMethodsFrom mo excl ms = LogosModule.getMethodsFrom mo excl ms := by
  induction ms with
  | nil => rfl
  | cons me rest ih =>
    simp only [ModuleIntrospection.getMethodsFrom, LogosModule.getMethodsFrom, ih]
    rfl

/-- The two hasMethod search loops agree. -/
theorem introspection_hasMethodFrom_eq (methodName : String) (l : List MethodInfo) :
    ModuleIntrospection.hasMethodFrom methodName l = LogosModule.hasMethodFrom methodName l := by
  induction l with
  | nil => rfl
  | cons info rest ih =>
    simp only [ModuleIntrospection.hasMethodFrom, LogosModule.hasMethodFrom, ih]

/-- C7: on a null instance every introspection entry point degrades: empty
method list, empty JSON array, hasMethod false, empty class name — in both
implementations. -/
theorem null_instance_introspection (excludeBaseClass : Bool) (methodName : String) :
    LogosModule.getMethods QObjectPtr.null excludeBaseClass = [] ∧
    LogosModule.getMethodsAsJson QObjectPtr.null excludeBaseClass = [] ∧
    LogosModule.hasMethod QObjectPtr.null methodName = false ∧
    LogosModule.getClassName QObjectPtr.null = "" ∧
    ModuleIntrospection.getMethods QObjectPtr.null excludeBaseClass = [] ∧
    ModuleIntrospection.getMethodsAsJson QObjectPtr.null excludeBaseClass = [] ∧
    ModuleIntrospection.hasMethod QObjectPtr.null methodName = false ∧
    ModuleIntrospection.getClassName QObjectPtr.null = "" :=
  ⟨rfl, rfl, rfl, rfl, rfl, rfl, rfl, rfl⟩

/-- C8: on a non-null instance whose meta-object reports only non-empty
method names (as Qt's moc guarantees), hasMethod holds exactly when the
full, base-class-included enumeration contains an entry with that exact
name; for the empty name it is false. -/
theorem hasMethod_iff_full_enumeration (mo : QMetaObject) (methodName : String)
    (hwf : ∀ me ∈ mo.methods, ¬me.name = "") :
    (LogosModule.hasMethod (QObjectPtr.obj mo) methodName = true ↔
      ∃ info ∈ LogosModule.getMethods (QObjectPtr.obj mo) false, info.name = methodName) ∧
    LogosModule.hasMethod (QObjectPtr.obj mo) "" = false := by
  have hdef : ∀ s : String, LogosModule.hasMethod (QObjectPtr.obj mo) s =
      (LogosModule.getMethods (QObjectPtr.obj mo) false).any (fun info => info.name == s) :=
    fun s => hasMethodFrom_eq_any s (LogosModule.getMethods (QObjectPtr.obj mo) false)
  constructor
  · rw [hdef, List.any_eq_true]
    constructor
    · rintro ⟨info, hmem, hbeq⟩
      exact ⟨info, hmem, by rwa [beq_iff_eq] at hbeq⟩
    · rintro ⟨info, hmem, heq⟩
      exact ⟨info, hmem, by rw [beq_iff_eq]; exact heq⟩
  · rw [hdef, List.any_eq_false]
    intro info hmem
    rw [getMethods_false_eq] at hmem
    rcases List.mem_map.mp hmem with ⟨me, hme, rfl⟩
    simp only [LogosModule.methodToInfo, beq_iff_eq]
    exact hwf me hme

/-- C8 witness: the mock meta-object, whose method names are non-empty. -/
theorem hasMethod_iff_full_enumeration_witness :
    LogosModule.hasMethod (QObjectPtr.obj mockMeta) "testMethod" = true ∧
    LogosModule.hasMethod (QObjectPtr.obj mockMeta) "deleteLater" = true ∧
    LogosModule.hasMethod (QObjectPtr.obj mockMeta) "missing" = false ∧
    LogosModule.hasMethod (QObjectPtr.obj mockMeta) "" = false := by
  have h := hasMethod_iff_full_enumeration mockMeta "testMethod" (by decide)
  exact ⟨rfl, rfl, rfl, h.2⟩

/-- C9: the excludeBaseClass variant is exactly the declaring-type filter of
the full enumeration (hence a subsequence); it is strictly shorter as soon
as some method is inherited, and a name with no most-derived declaration
never survives the filter even when the full enumeration has it. -/
theorem excludeBaseClass_pure_filter (mo : QMetaObject) :
    LogosModule.getMethods (QObjectPtr.obj mo) true =
      (mo.methods.filter (fun me => me.enclosing == mo.objId)).map LogosModule.methodToInfo ∧
    LogosModule.getMethods (QObjectPtr.obj mo) false =
      mo.methods.map LogosModule.methodToInfo ∧
    List.Sublist (LogosModule.getMethods (QObjectPtr.obj mo) true)
      (LogosModule.getMethods (QObjectPtr.obj mo) false) ∧
    ((∃ me ∈ mo.methods, ¬me.enclosing = mo.objId) →
      (LogosModule.getMethods (QObjectPtr.obj mo) true).length <
        (LogosModule.getMethods (QObjectPtr.obj mo) false).length) ∧
    (∀ methodName : String,
      (∀ me ∈ mo.methods, me.enclosing = mo.objId → ¬me.name = methodName) →
      methodName ∈ (LogosModule.getMethods (QObjectPtr.obj mo) false).map MethodInfo.name →
      ¬methodName ∈ (LogosModule.getMethods (QObjectPtr.obj mo) true).map MethodInfo.name) := by
  refine ⟨getMethods_true_eq mo, getMethods_false_eq mo, ?_, ?_, ?_⟩
  · rw [getMethods_true_eq, getMethods_false_eq]
    exact (List.filter_sublist mo.methods).map LogosModule.methodToInfo
  · rintro ⟨me, hme, hne⟩
    rw [getMethods_true_eq, getMethods_false_eq, List.length_map, List.length_map]
    exact length_filter_lt_of_exists_not _ mo.methods ⟨me, hme, beq_eq_false_iff_ne.mpr hne⟩
  · intro methodName hnone _ hmem
    rw [getMethods_true_eq] at hmem
    rcases List.mem_map.mp hmem with ⟨info, hinfo, hname⟩
    rcases List.mem_map.mp hinfo with ⟨me, hmef, rfl⟩
    rcases List.mem_filter.mp hmef with ⟨hmeM, hbeq⟩
    exact hnone me hmeM (by rwa [beq_iff_eq] at hbeq)
      (by simpa [LogosModule.methodToInfo] using hname)

/-- C9 witness: on the mock meta-object the filtered enumeration is strictly
shorter and the inherited deleteLater survives only in the full one. -/
theorem excludeBaseClass_pure_filter_witness :
    (LogosModule.getMethods (QObjectPtr.obj mockMeta) true).length <
      (LogosModule.getMethods (QObjectPtr.obj mockMeta) false).length ∧
    ¬"deleteLater" ∈ (LogosModule.getMethods (QObjectPtr.obj mockMeta) true).map MethodInfo.name ∧
    "deleteLater" ∈ (LogosModule.getMethods (QObjectPtr.obj mockMeta) false).map MethodInfo.name := by
  have h := excludeBaseClass_pure_filter mockMeta
  have hmem : "deleteLater" ∈
      (LogosModule.getMethods (QObjectPtr.obj mockMeta) false).map MethodInfo.name := by
    rw [h.2.1]
    decide
  refine ⟨h.2.2.2.1 ⟨mDeleteLater, by decide, by decide⟩, ?_, hmem⟩
  exact h.2.2.2.2 "deleteLater" (by decide) hmem

/-- C10: the ModuleIntrospection entry points and the static LogosModule
entry points are extensionally equal on every input, including the JSON
serializers. -/
theorem implementations_extensionally_equal (plugin : QObjectPtr) (excludeBaseClass : Bool)
    (methodName : String) (mi : MethodInfo) (p : ParameterInfo) :
    ModuleIntrospection.getMethods plugin excludeBaseClass =
      LogosModule.getMethods plugin excludeBaseClass ∧
    ModuleIntrospection.getMethodsAsJson plugin excludeBaseClass =
      LogosModule.getMethodsAsJson plugin excludeBaseClass ∧
    ModuleIntrospection.getClassName plugin = LogosModule.getClassName plugin ∧
    ModuleIntrospection.hasMethod plugin methodName = LogosModule.hasMethod plugin methodName ∧
    ModuleIntrospection.MethodInfo.toJson mi = LogosModule.MethodInfo.toJson mi ∧
    ModuleIntrospection.ParameterInfo.toJson p = LogosModule.ParameterInfo.toJson p := by
  have hget : ∀ (q : QObjectPtr) (b : Bool),
      ModuleIntrospection.getMethods q b = LogosModule.getMethods q b := by
    intro q b
    cases q with
    | null => rfl
    | obj mo => exact introspection_getMethodsFrom_eq mo b mo.methods
  refine ⟨hget plugin excludeBaseClass, ?_, ?_, ?_, rfl, rfl⟩
  · show (ModuleIntrospection.getMethods plugin excludeBaseClass).map
        ModuleIntrospection.MethodInfo.toJson = _
    rw [hget]
    rfl
  · cases plugin <;> rfl
  · cases plugin with
    | null => rfl
    | obj mo =>
      show ModuleIntrospection.hasMethodFrom methodName
          (ModuleIntrospection.getMethods (QObjectPtr.obj mo) false) = _
      rw [hget, introspection_hasMethodFrom_eq]
      rfl

end ModuleLib
